import Mathlib

/-!
Verification of the bounded blocking message queue from `MessageQueue.cpp` /
`MessageQueue.h` (class `MessageQueuePosix` and the typed wrapper
`MessageQueueT`).

The sequential state of one queue instance is embedded as a `QueueState`:
the fixed `max_capacity`, the one-shot cancellation flag `m_cancelled` and
the FIFO container `m_queue` (a `std::deque<IMessagePtr>` modelled as a
`List`).  Each public method is translated into a pure state-passing
function; the mutex, the condition variable and its signalling have no
effect on this sequential state, so they do not appear.  A blocking `pop`
can suspend the caller; its call-time behaviour is modelled by a
`PopResult` that is either an immediate return (`ret`) or the arrival at
`m_cond.wait` (`wait`).
-/

/-- Sequential state of one `MessageQueuePosix` instance:
`m_max_capacity`, `m_cancelled` and `m_queue` (front of the list =
front of the deque). -/
structure QueueState (α : Type) where
  max_capacity : Nat
  cancelled : Bool
  queue : List α
deriving DecidableEq, Repr

/-- Constructor `MessageQueuePosix(max_capacity)`: stores the capacity,
clears the cancellation flag; the deque starts empty. -/
def createQueue (α : Type) (max_capacity : Nat) : QueueState α :=
  { max_capacity := max_capacity, cancelled := false, queue := [] }

/-- `MessageQueuePosix::push` (MessageQueue.cpp:118-141):
`ret = m_queue.size(); if (ret < m_max_capacity) { push_back; ret++; }
else ret = 0;` returning the pair (state after, return value).
The `m_cond.signal()` on the empty-to-non-empty transition has no effect
on the sequential state. -/
def push (s : QueueState α) (message : α) : QueueState α × Nat :=
  let ret := s.queue.length
  if ret < s.max_capacity then
    ({ s with queue := s.queue ++ [message] }, ret + 1)
  else
    (s, 0)

/-- Call-time outcome of `MessageQueuePosix::pop`: either the method
returns (with the optional popped message — `none` means the out-parameter
`message` was not assigned — and the returned count), or the calling
thread reaches `m_cond.wait`. -/
inductive PopResult (α : Type) where
  | ret (message : Option α) (count : Nat)
  | wait
deriving DecidableEq, Repr

/-- `MessageQueuePosix::pop` (MessageQueue.cpp:72-114), call-time
behaviour.  Blocking branch: the loop condition `while (!m_cancelled)` is
evaluated first, so a set cancellation flag returns `ret = 0` at once;
otherwise `ret = m_queue.size()` and a non-empty queue pops the front and
returns the pre-removal size, while an empty one reaches `m_cond.wait`.
Non-blocking branch: `ret = m_queue.size()`, pop the front when positive,
return `ret`. -/
def pop (s : QueueState α) (blocking : Bool) : QueueState α × PopResult α :=
  if blocking then
    if s.cancelled then
      (s, PopResult.ret none 0)
    else
      match s.queue with
      | [] => (s, PopResult.wait)
      | m :: rest => ({ s with queue := rest }, PopResult.ret (some m) (rest.length + 1))
  else
    match s.queue with
    | [] => (s, PopResult.ret none 0)
    | m :: rest => ({ s with queue := rest }, PopResult.ret (some m) (rest.length + 1))

/-- `MessageQueuePosix::cancel` (MessageQueue.cpp:145-151): sets
`m_cancelled = true`; the `m_cond.broadcast()` has no effect on the
sequential state. -/
def cancel (s : QueueState α) : QueueState α :=
  { s with cancelled := true }

/-- `MessageQueuePosix::is_cancelled` (MessageQueue.cpp:155-159). -/
def is_cancelled (s : QueueState α) : Bool :=
  s.cancelled

/-- `MessageQueuePosix::size` (MessageQueue.cpp:163-169). -/
def size (s : QueueState α) : Nat :=
  s.queue.length

/-- One call on the queue's public interface (the operations of
`IMessageQueue`; `size` and `is_cancelled` do not change the state but are
listed so that a trace can mention every operation). -/
inductive Op (α : Type) where
  | push (message : α)
  | popNB
  | popB
  | cancel
  | is_cancelled
  | size
deriving DecidableEq, Repr

/-- State after one operation. -/
def stepOp (s : QueueState α) : Op α → QueueState α
  | Op.push m => (push s m).1
  | Op.popNB => (pop s false).1
  | Op.popB => (pop s true).1
  | Op.cancel => cancel s
  | Op.is_cancelled => s
  | Op.size => s

/-- State after a sequence of operations. -/
def runOps (s : QueueState α) : List (Op α) → QueueState α
  | [] => s
  | op :: ops => runOps (stepOp s op) ops

/-- Running a trace while collecting, in order, the values of the
successful pushes (those whose `push` returned a positive count) and the
values returned by the successful pops.  Result: final state, accepted
pushed values, popped values. -/
def runTrace (s : QueueState α) : List (Op α) → QueueState α × List α × List α
  | [] => (s, [], [])
  | op :: ops =>
    match op with
    | Op.push m =>
      let r := push s m
      let rec_result := runTrace r.1 ops
      (rec_result.1, (if r.2 > 0 then [m] else []) ++ rec_result.2.1, rec_result.2.2)
    | Op.popNB =>
      let r := pop s false
      let rec_result := runTrace r.1 ops
      (rec_result.1, rec_result.2.1,
        (match r.2 with
         | PopResult.ret (some m) _ => [m]
         | _ => []) ++ rec_result.2.2)
    | Op.popB =>
      let r := pop s true
      let rec_result := runTrace r.1 ops
      (rec_result.1, rec_result.2.1,
        (match r.2 with
         | PopResult.ret (some m) _ => [m]
         | _ => []) ++ rec_result.2.2)
    | Op.cancel =>
      runTrace (cancel s) ops
    | Op.is_cancelled =>
      runTrace s ops
    | Op.size =>
      runTrace s ops

/-!
The typed wrapper `MessageQueueT<M>` (MessageQueue.h:189-349).  The
untyped queue stores `Message = shared_ptr<IMessage>` handles; through a
`MessageQueueT<M>` every pushed handle points to a `MessageImpl<M>`
holding a payload of type `M`, but in general a handle can be null or
point to any other subclass of `IMessage`.  `Msg M` models the dynamic
content of one handle. -/

/-- Dynamic content of a `Message` handle as seen by `MessageQueueT<M>`:
a `MessageImpl<M>` carrying a payload, some other subclass of `IMessage`
(distinguished by an arbitrary tag), or a null pointer. -/
inductive Msg (M : Type) where
  | impl (payload : M)
  | otherType (tag : Nat)
  | null
deriving DecidableEq, Repr

/-- `std::dynamic_pointer_cast<MessageImpl<M>>`: succeeds exactly on a
handle whose dynamic type is `MessageImpl<M>`; on any other handle (or a
null one) the cast yields a null pointer, modelled as `none`. -/
def dynCastImpl : Msg M → Option M
  | Msg.impl v => some v
  | Msg.otherType _ => none
  | Msg.null => none

/-- `MessageQueueT<M>::push` (MessageQueue.h:315-322): wraps the value in
a fresh `MessageImpl<M>` and forwards to the untyped push, returning its
result unchanged. -/
def pushT (s : QueueState (Msg M)) (message : M) : QueueState (Msg M) × Nat :=
  push s (Msg.impl message)

/-- `MessageQueueT<M>::pop` (MessageQueue.h:291-311), call-time
behaviour: forwards to the untyped pop (`none` = the caller is suspended
at `m_cond.wait`); on a positive return it asserts the popped handle is
non-null, dynamic-casts it to `MessageImpl<M>`, asserts the cast
preserved the pointer, and copies out the payload.  The result quadruple
is the state after, the out-parameter `dst_message` (`none` when it was
not assigned), the returned count, and whether the two `assert`s of the
body held. -/
def popT [DecidableEq M] (s : QueueState (Msg M)) (blocking : Bool) :
    Option (QueueState (Msg M) × Option M × Nat × Bool) :=
  match pop s blocking with
  | (_, PopResult.wait) => none
  | (s2, PopResult.ret om ret) =>
    if ret > 0 then
      match om with
      | none => some (s2, none, ret, false)
      | some m =>
        let assert1 := m ≠ Msg.null
        match dynCastImpl m with
        | some v => some (s2, some v, ret, decide assert1 && true)
        | none => some (s2, none, ret, false)
    else
      some (s2, none, ret, true)

/-- A typed operation: one call on the `MessageQueueT<M>` interface. -/
inductive TOp (M : Type) where
  | push (message : M)
  | popNB
  | popB
  | cancel
deriving DecidableEq, Repr

/-- State after one typed operation (delegation to the untyped queue). -/
def stepTOp (s : QueueState (Msg M)) : TOp M → QueueState (Msg M)
  | TOp.push v => (pushT s v).1
  | TOp.popNB => (pop s false).1
  | TOp.popB => (pop s true).1
  | TOp.cancel => cancel s

/-- State after a sequence of typed operations. -/
def runTOps (s : QueueState (Msg M)) : List (TOp M) → QueueState (Msg M)
  | [] => s
  | op :: ops => runTOps (stepTOp s op) ops

/-- Every handle in the queue points to a `MessageImpl<M>` — the
invariant of a queue used only through one `MessageQueueT<M>`. -/
def TypedOnly (s : QueueState (Msg M)) : Prop :=
  ∀ m ∈ s.queue, ∃ v, m = Msg.impl v

/-! ## Basic shape lemmas -/

/-- `push` either accepts (queue below capacity: appends at the tail and
returns the new length) or rejects (returns the pair unchanged-state, 0). -/
theorem push_cases (s : QueueState α) (m : α) :
    (s.queue.length < s.max_capacity
        ∧ push s m = ({ s with queue := s.queue ++ [m] }, s.queue.length + 1))
    ∨ (s.max_capacity ≤ s.queue.length ∧ push s m = (s, 0)) := by
  by_cases h : s.queue.length < s.max_capacity
  · exact Or.inl ⟨h, by simp [push, h]⟩
  · exact Or.inr ⟨Nat.le_of_not_lt h, by simp [push, h]⟩

/-- `pop` does not change the cancellation flag. -/
theorem pop_cancelled (s : QueueState α) (b : Bool) :
    (pop s b).1.cancelled = s.cancelled := by
  unfold pop
  rcases b with _ | _ <;> cases hq : s.queue <;> cases hc : s.cancelled <;> simp [hq, hc]

/-- `pop` does not change the capacity. -/
theorem pop_max_capacity (s : QueueState α) (b : Bool) :
    (pop s b).1.max_capacity = s.max_capacity := by
  unfold pop
  rcases b with _ | _ <;> cases hq : s.queue <;> cases hc : s.cancelled <;> simp [hq, hc]

/-- `push` does not change the cancellation flag. -/
theorem push_cancelled (s : QueueState α) (m : α) :
    (push s m).1.cancelled = s.cancelled := by
  rcases push_cases s m with ⟨_, h⟩ | ⟨_, h⟩ <;> rw [h]

/-- `push` does not change the capacity. -/
theorem push_max_capacity (s : QueueState α) (m : α) :
    (push s m).1.max_capacity = s.max_capacity := by
  rcases push_cases s m with ⟨_, h⟩ | ⟨_, h⟩ <;> rw [h]

/-! ## C1: push -/

/-- C1.  For every queue state satisfying the capacity invariant and every
message, `push` returns 0 if and only if the stored count equals
`max_capacity` at the time of the call, and in that case performs no
mutation; otherwise it appends the message at the tail and returns
`previous_count + 1`, which is at least 1. -/
theorem push_zero_iff_full (s : QueueState α) (m : α)
    (hcap : s.queue.length ≤ s.max_capacity) :
    ((push s m).2 = 0 ↔ s.queue.length = s.max_capacity)
    ∧ (s.queue.length = s.max_capacity → (push s m).1 = s)
    ∧ (s.queue.length ≠ s.max_capacity →
        (push s m).1.queue = s.queue ++ [m]
          ∧ (push s m).2 = s.queue.length + 1
          ∧ 1 ≤ (push s m).2) := by
  rcases push_cases s m with ⟨hlt, h⟩ | ⟨hge, h⟩
  · rw [h]
    exact ⟨by simp [Nat.ne_of_lt hlt], fun he => absurd he (Nat.ne_of_lt hlt),
      fun _ => ⟨rfl, rfl, Nat.succ_le_succ (Nat.zero_le _)⟩⟩
  · have he : s.queue.length = s.max_capacity := Nat.le_antisymm hcap hge
    rw [h]
    exact ⟨by simp [he], fun _ => rfl, fun hne => absurd he hne⟩

/-- Witness for C1 at a full queue of capacity 2. -/
theorem push_zero_iff_full_witness :
    (push (⟨2, false, [5, 6]⟩ : QueueState Nat) 9).2 = 0 :=
  (push_zero_iff_full (⟨2, false, [5, 6]⟩ : QueueState Nat) 9 (by decide)).1.mpr (by decide)

/-! ## C3: non-blocking pop -/

/-- C3.  `pop(blocking=false)` returns 0 (leaving the out-parameter
untouched and the state unchanged) if and only if the queue is empty at
call time; otherwise it removes exactly the head, stores it in the
out-parameter, and returns the pre-removal count, which is at least 1.
It never blocks: the non-blocking branch never reaches `m_cond.wait`. -/
theorem pop_nonblocking_spec (s : QueueState α) :
    ((pop s false).2 = PopResult.ret none 0 ↔ s.queue = [])
    ∧ (s.queue = [] → (pop s false).1 = s)
    ∧ (∀ m rest, s.queue = m :: rest →
        (pop s false).1 = { s with queue := rest }
          ∧ (pop s false).2 = PopResult.ret (some m) s.queue.length
          ∧ 1 ≤ s.queue.length)
    ∧ (pop s false).2 ≠ PopResult.wait := by
  cases hq : s.queue with
  | nil => simp [pop, hq]
  | cons m rest => simp [pop, hq]

/-- Witness for C3 on the two-element queue `[7, 8]`. -/
theorem pop_nonblocking_spec_witness :
    (pop (⟨2, false, [7, 8]⟩ : QueueState Nat) false).1
        = (⟨2, false, [8]⟩ : QueueState Nat)
    ∧ (pop (⟨2, false, [7, 8]⟩ : QueueState Nat) false).2 = PopResult.ret (some 7) 2 := by
  have h := (pop_nonblocking_spec (⟨2, false, [7, 8]⟩ : QueueState Nat)).2.2.1 7 [8] rfl
  exact ⟨h.1, h.2.1⟩

/-! ## C2: order of the checks in blocking pop -/

/-- Counterexample to C2 as stated: on the cancelled one-element queue
`[5]`, the queue is non-empty, yet `pop(blocking=true)` does NOT remove
and return the head with the pre-removal length 1 — the loop condition
`while (!m_cancelled)` fails first, so the call returns 0 with the queue
untouched and the out-parameter unassigned. -/
theorem pop_blocking_order_counterexample :
    (⟨1, true, [5]⟩ : QueueState Nat).queue ≠ []
    ∧ ¬ ((pop (⟨1, true, [5]⟩ : QueueState Nat) true).2 = PopResult.ret (some 5) 1)
    ∧ pop (⟨1, true, [5]⟩ : QueueState Nat) true
        = ((⟨1, true, [5]⟩ : QueueState Nat), PopResult.ret none 0) := by
  decide

/-- C2 amended.  In blocking pop the cancellation check comes before the
non-empty check: if the cancellation flag is set at call time, the call
returns failure (0) at once, without touching the queue or the
out-parameter, regardless of the queue contents; if the flag is clear and
the queue is non-empty, the call removes and returns the head with the
pre-removal length; if the flag is clear and the queue is empty, the call
suspends at `m_cond.wait`. -/
theorem pop_blocking_spec (s : QueueState α) :
    (s.cancelled = true → pop s true = (s, PopResult.ret none 0))
    ∧ (s.cancelled = false → ∀ m rest, s.queue = m :: rest →
        (pop s true).1 = { s with queue := rest }
          ∧ (pop s true).2 = PopResult.ret (some m) s.queue.length)
    ∧ (s.cancelled = false → s.queue = [] → pop s true = (s, PopResult.wait)) := by
  refine ⟨fun hc => by simp [pop, hc], fun hc m rest hq => ?_, fun hc hq => by simp [pop, hc, hq]⟩
  constructor <;> simp [pop, hc, hq]

/-- Witness for the amended C2: a cancelled non-empty queue returns
failure, and an active non-empty queue pops its head. -/
theorem pop_blocking_spec_witness :
    pop (⟨1, true, [5]⟩ : QueueState Nat) true
        = ((⟨1, true, [5]⟩ : QueueState Nat), PopResult.ret none 0)
    ∧ (pop (⟨3, false, [4, 9]⟩ : QueueState Nat) true).2 = PopResult.ret (some 4) 2 := by
  refine ⟨(pop_blocking_spec (⟨1, true, [5]⟩ : QueueState Nat)).1 rfl, ?_⟩
  exact ((pop_blocking_spec (⟨3, false, [4, 9]⟩ : QueueState Nat)).2.1 rfl 4 [9] rfl).2

/-! ## C9 and C10: push and non-blocking pop ignore the cancellation flag -/

/-- C9.  `push` never reads `m_cancelled`: on a cancelled queue below
capacity it still appends the message at the tail and returns the new
length, exactly as on the same queue with the flag cleared. -/
theorem push_ignores_cancelled (s : QueueState α) (m : α)
    (hc : s.cancelled = true) (hlt : s.queue.length < s.max_capacity) :
    (push s m).1.queue = s.queue ++ [m]
    ∧ (push s m).2 = s.queue.length + 1
    ∧ (push s m).1.queue = (push { s with cancelled := false } m).1.queue
    ∧ (push s m).2 = (push { s with cancelled := false } m).2 := by
  have h1 : push s m = ({ s with queue := s.queue ++ [m] }, s.queue.length + 1) := by
    simp [push, hlt]
  have h2 : push { s with cancelled := false } m
      = ({ s with cancelled := false, queue := s.queue ++ [m] }, s.queue.length + 1) := by
    simp [push, hlt]
  rw [h1, h2]
  exact ⟨rfl, rfl, rfl, rfl⟩

/-- Witness for C9: pushing onto a cancelled queue still appends. -/
theorem push_ignores_cancelled_witness :
    (push (⟨2, true, [3]⟩ : QueueState Nat) 8).1.queue = [3, 8]
    ∧ (push (⟨2, true, [3]⟩ : QueueState Nat) 8).2 = 2 := by
  have h := push_ignores_cancelled (⟨2, true, [3]⟩ : QueueState Nat) 8 rfl (by decide)
  exact ⟨h.1, h.2.1⟩

/-- C10.  Non-blocking pop never reads `m_cancelled`: on a cancelled
non-empty queue it still removes and returns the head with the
pre-removal count, exactly as on the same queue with the flag cleared,
so queued messages remain drainable after `cancel()`. -/
theorem pop_nonblocking_ignores_cancelled (s : QueueState α)
    (hc : s.cancelled = true) (m : α) (rest : List α) (hq : s.queue = m :: rest) :
    (pop s false).1.queue = rest
    ∧ (pop s false).2 = PopResult.ret (some m) s.queue.length
    ∧ (pop s false).1.queue = (pop { s with cancelled := false } false).1.queue
    ∧ (pop s false).2 = (pop { s with cancelled := false } false).2 := by
  simp [pop, hq]

/-- Witness for C10: a cancelled queue holding `[7, 8]` still pops 7. -/
theorem pop_nonblocking_ignores_cancelled_witness :
    (pop (⟨2, true, [7, 8]⟩ : QueueState Nat) false).1.queue = [8]
    ∧ (pop (⟨2, true, [7, 8]⟩ : QueueState Nat) false).2 = PopResult.ret (some 7) 2 := by
  have h := pop_nonblocking_ignores_cancelled (⟨2, true, [7, 8]⟩ : QueueState Nat) rfl 7 [8] rfl
  exact ⟨h.1, h.2.1⟩

/-! ## C4: cancellation is permanent -/

/-- No operation resets a set cancellation flag. -/
theorem stepOp_cancelled_mono (s : QueueState α) (op : Op α)
    (h : s.cancelled = true) : (stepOp s op).cancelled = true := by
  cases op with
  | push m => rw [stepOp, push_cancelled]; exact h
  | popNB => rw [stepOp, pop_cancelled]; exact h
  | popB => rw [stepOp, pop_cancelled]; exact h
  | cancel => rfl
  | is_cancelled => exact h
  | size => exact h

/-- A set cancellation flag survives any sequence of operations. -/
theorem runOps_cancelled_mono (ops : List (Op α)) :
    ∀ s : QueueState α, s.cancelled = true → (runOps s ops).cancelled = true := by
  induction ops with
  | nil => exact fun s h => h
  | cons op ops ih => exact fun s h => ih (stepOp s op) (stepOp_cancelled_mono s op h)

/-- C4.  After `cancel()`, no matter which operations follow,
`is_cancelled()` still reads true and every call to `pop(blocking=true)`
returns failure (0) immediately — it returns rather than reaching
`m_cond.wait`, and leaves the state unchanged. -/
theorem cancel_permanent (s : QueueState α) (ops : List (Op α)) :
    is_cancelled (runOps (cancel s) ops) = true
    ∧ pop (runOps (cancel s) ops) true
        = (runOps (cancel s) ops, PopResult.ret none 0) := by
  have hc : (runOps (cancel s) ops).cancelled = true :=
    runOps_cancelled_mono ops (cancel s) rfl
  exact ⟨hc, by simp [pop, hc]⟩

/-! ## C7: capacity invariant -/

/-- Every operation keeps the capacity field unchanged and preserves
`queue.length ≤ max_capacity`. -/
theorem stepOp_capacity (s : QueueState α) (op : Op α)
    (h : s.queue.length ≤ s.max_capacity) :
    (stepOp s op).max_capacity = s.max_capacity
    ∧ (stepOp s op).queue.length ≤ (stepOp s op).max_capacity := by
  cases op with
  | push m =>
    rcases push_cases s m with ⟨hlt, hp⟩ | ⟨_, hp⟩
    · refine ⟨by rw [stepOp, hp], ?_⟩
      rw [stepOp, hp]
      simpa using hlt
    · exact ⟨by rw [stepOp, hp], by rw [stepOp, hp]; exact h⟩
  | popNB =>
    refine ⟨pop_max_capacity s false, ?_⟩
    rw [stepOp, pop_max_capacity]
    unfold pop
    cases hq : s.queue with
    | nil => simpa [hq] using h
    | cons m rest =>
      simp only [hq, Bool.false_eq_true, if_false]
      exact Nat.le_of_succ_le (by simpa [hq] using h)
  | popB =>
    refine ⟨pop_max_capacity s true, ?_⟩
    rw [stepOp, pop_max_capacity]
    unfold pop
    cases hc : s.cancelled with
    | true => simpa [hc] using h
    | false =>
      cases hq : s.queue with
      | nil => simpa [hc, hq] using h
      | cons m rest =>
        simp only [hc, hq, if_true, Bool.false_eq_true, if_false]
        exact Nat.le_of_succ_le (by simpa [hq] using h)
  | cancel => exact ⟨rfl, h⟩
  | is_cancelled => exact ⟨rfl, h⟩
  | size => exact ⟨rfl, h⟩

/-- The capacity invariant propagates along any sequence of operations. -/
theorem runOps_capacity (ops : List (Op α)) :
    ∀ s : QueueState α, s.queue.length ≤ s.max_capacity →
      (runOps s ops).queue.length ≤ (runOps s ops).max_capacity := by
  induction ops with
  | nil => exact fun s h => h
  | cons op ops ih => exact fun s h => ih (stepOp s op) (stepOp_capacity s op h).2

/-- C7.  A queue created with capacity `cap` satisfies
`queue.length ≤ max_capacity` initially (with length 0) and after every
sequence of operations; each single operation preserves the invariant;
and `push` never grows the queue past `max_capacity`.  (The lower bound
`0 ≤ queue.length` is automatic for natural numbers.) -/
theorem capacity_invariant (cap : Nat) (ops : List (Op α)) :
    (createQueue α cap).queue.length = 0
    ∧ (runOps (createQueue α cap) ops).queue.length
        ≤ (runOps (createQueue α cap) ops).max_capacity
    ∧ (runOps (createQueue α cap) ops).max_capacity = cap
    ∧ (∀ (s : QueueState α) (op : Op α), s.queue.length ≤ s.max_capacity →
        (stepOp s op).queue.length ≤ (stepOp s op).max_capacity)
    ∧ (∀ (s : QueueState α) (m : α), s.queue.length ≤ s.max_capacity →
        (push s m).1.queue.length ≤ s.max_capacity) := by
  have hmax : ∀ ops2 : List (Op α), ∀ s : QueueState α,
      (runOps s ops2).max_capacity = s.max_capacity := by
    intro ops2
    induction ops2 with
    | nil => exact fun s => rfl
    | cons op ops2 ih =>
      intro s
      rw [runOps, ih (stepOp s op)]
      cases op with
      | push m => exact push_max_capacity s m
      | popNB => exact pop_max_capacity s false
      | popB => exact pop_max_capacity s true
      | cancel => rfl
      | is_cancelled => rfl
      | size => rfl
  refine ⟨rfl, runOps_capacity ops (createQueue α cap) (Nat.zero_le _),
    hmax ops (createQueue α cap), fun s op h => (stepOp_capacity s op h).2,
    fun s m h => ?_⟩
  rcases push_cases s m with ⟨hlt, hp⟩ | ⟨_, hp⟩
  · rw [hp]; simpa using hlt
  · rw [hp]; exact h

/-- Witness for C7: after pushes and pops on a queue of capacity 2 the
length stays within the capacity. -/
theorem capacity_invariant_witness :
    (runOps (createQueue Nat 2) [Op.push 1, Op.push 2, Op.push 3, Op.popNB]).queue.length
      ≤ (runOps (createQueue Nat 2) [Op.push 1, Op.push 2, Op.push 3, Op.popNB]).max_capacity :=
  (capacity_invariant 2 [Op.push 1, Op.push 2, Op.push 3, Op.popNB]).2.1

/-! ## C5: FIFO order -/

/-- Trace invariant: the initial contents followed by the accepted
pushed values equal the popped values followed by the final contents. -/
theorem runTrace_fifo (ops : List (Op α)) :
    ∀ s : QueueState α,
      s.queue ++ (runTrace s ops).2.1
        = (runTrace s ops).2.2 ++ (runTrace s ops).1.queue := by
  induction ops with
  | nil => intro s; simp [runTrace]
  | cons op ops ih =>
    intro s
    cases op with
    | push m =>
      rcases push_cases s m with ⟨hlt, hp⟩ | ⟨_, hp⟩
      · have := ih ({ s with queue := s.queue ++ [m] })
        simp only [runTrace, hp] at *
        simpa [List.append_assoc] using this
      · have := ih s
        simp only [runTrace, hp] at *
        simpa using this
    | popNB =>
      cases hq : s.queue with
      | nil =>
        have := ih s
        simp only [runTrace, pop, hq] at *
        simpa [hq] using this
      | cons m rest =>
        have := ih ({ s with queue := rest })
        simp only [runTrace, pop, hq] at *
        simpa [hq] using this
    | popB =>
      cases hc : s.cancelled with
      | true =>
        have := ih s
        simp only [runTrace, pop, hc] at *
        simpa using this
      | false =>
        cases hq : s.queue with
        | nil =>
          have := ih s
          simp only [runTrace, pop, hc, hq] at *
          simpa [hq] using this
        | cons m rest =>
          have := ih ({ s with queue := rest })
          simp only [runTrace, pop, hc, hq] at *
          simpa [hq] using this
    | cancel =>
      have := ih (cancel s)
      simp only [runTrace] at *
      simpa [cancel] using this
    | is_cancelled =>
      have := ih s
      simp only [runTrace] at *
      exact this
    | size =>
      have := ih s
      simp only [runTrace] at *
      exact this

/-- C5.  FIFO: starting from a freshly created queue, for every sequence
of operations the accepted pushed values equal the popped values followed
by the remaining contents — so the values returned by successful pops
appear in exactly the relative order of the successful pushes that
produced them, with no reordering. -/
theorem fifo_order (cap : Nat) (ops : List (Op α)) :
    (runTrace (createQueue α cap) ops).2.1
      = (runTrace (createQueue α cap) ops).2.2
          ++ (runTrace (createQueue α cap) ops).1.queue := by
  have h := runTrace_fifo ops (createQueue α cap)
  simpa [createQueue] using h

/-! ## C6: typed-wrapper round trip -/

/-- C6.  On a typed queue that is empty, below capacity and not
cancelled, `push(v)` returns 1 and one `pop` (in either mode) succeeds:
it returns the pre-removal count 1, passes both assertions, stores a
value equal to `v` in the out-parameter, and leaves the queue empty
again. -/
theorem typed_roundtrip [DecidableEq M] (s : QueueState (Msg M)) (v : M)
    (hq : s.queue = []) (hcap : 0 < s.max_capacity) (hc : s.cancelled = false)
    (b : Bool) :
    (pushT s v).2 = 1
    ∧ popT (pushT s v).1 b = some (s, some v, 1, true) := by
  obtain ⟨mc, c, q⟩ := s
  simp only at hq hc hcap
  subst hq
  subst hc
  have hp : pushT (⟨mc, false, []⟩ : QueueState (Msg M)) v
      = ((⟨mc, false, [Msg.impl v]⟩ : QueueState (Msg M)), 1) := by
    simp [pushT, push, hcap]
  rcases b with _ | _ <;> simp [hp, popT, pop, dynCastImpl]

/-- Witness for C6 with payload 42 on a fresh queue of capacity 2. -/
theorem typed_roundtrip_witness :
    (pushT (createQueue (Msg Nat) 2) 42).2 = 1
    ∧ popT (pushT (createQueue (Msg Nat) 2) 42).1 true
        = some (createQueue (Msg Nat) 2, some 42, 1, true) :=
  typed_roundtrip (createQueue (Msg Nat) 2) 42 rfl (by decide) rfl true

/-! ## C8: type recovery succeeds by construction -/

/-- A popped state's contents are drawn from the original contents. -/
theorem pop_queue_mem (s : QueueState α) (b : Bool) (m : α)
    (hm : m ∈ (pop s b).1.queue) : m ∈ s.queue := by
  unfold pop at hm
  rcases b with _ | _ <;> cases hq : s.queue <;> cases hc : s.cancelled <;>
    simp [hq, hc] at hm <;> simp [hq, hm]

/-- Every typed operation preserves the all-handles-are-`MessageImpl<M>`
invariant. -/
theorem stepTOp_typedOnly (s : QueueState (Msg M)) (op : TOp M)
    (h : TypedOnly s) : TypedOnly (stepTOp s op) := by
  cases op with
  | push v =>
    intro m hm
    rcases push_cases s (Msg.impl v) with ⟨_, hp⟩ | ⟨_, hp⟩ <;>
      rw [stepTOp, pushT, hp] at hm
    · rcases List.mem_append.mp hm with h1 | h1
      · exact h m h1
      · exact ⟨v, List.mem_singleton.mp h1⟩
    · exact h m hm
  | popNB => exact fun m hm => h m (pop_queue_mem s false m hm)
  | popB => exact fun m hm => h m (pop_queue_mem s true m hm)
  | cancel => exact h

/-- The typed invariant propagates along any sequence of typed
operations. -/
theorem runTOps_typedOnly (ops : List (TOp M)) :
    ∀ s : QueueState (Msg M), TypedOnly s → TypedOnly (runTOps s ops) := by
  induction ops with
  | nil => exact fun s h => h
  | cons op ops ih => exact fun s h => ih (stepTOp s op) (stepTOp_typedOnly s op h)

/-- On a queue whose handles all point to `MessageImpl<M>`, a typed pop
that returns a positive count passes both assertions and assigns the
out-parameter. -/
theorem popT_asserts_hold [DecidableEq M] (s : QueueState (Msg M)) (b : Bool)
    (ht : TypedOnly s) (s2 : QueueState (Msg M)) (om : Option M) (ret : Nat)
    (ok : Bool) (h : popT s b = some (s2, om, ret, ok)) (hret : 0 < ret) :
    ok = true ∧ ∃ v, om = some v := by
  rcases b with _ | _
  · cases hq : s.queue with
    | nil =>
      simp [popT, pop, hq] at h
      omega
    | cons mhd rest =>
      obtain ⟨v, hv⟩ := ht mhd (by rw [hq]; exact List.mem_cons_self mhd rest)
      subst hv
      simp [popT, pop, hq, dynCastImpl] at h
      exact ⟨h.2.2.2, v, h.2.1.symm⟩
  · cases hc : s.cancelled with
    | true =>
      simp [popT, pop, hc] at h
      omega
    | false =>
      cases hq : s.queue with
      | nil => simp [popT, pop, hc, hq] at h
      | cons mhd rest =>
        obtain ⟨v, hv⟩ := ht mhd (by rw [hq]; exact List.mem_cons_self mhd rest)
        subst hv
        simp [popT, pop, hc, hq, dynCastImpl] at h
        exact ⟨h.2.2.2, v, h.2.1.symm⟩

/-- C8.  For every payload type `M` and every sequence of typed
operations starting from a fresh queue — so every push went through the
same `MessageQueueT<M>` — a typed pop that returns a positive count
passes both assertions in `MessageQueueT<M>::pop` (popped handle
non-null, dynamic cast preserving the pointer) and assigns the
out-parameter. -/
theorem typed_pop_asserts (M : Type) [DecidableEq M] (cap : Nat)
    (ops : List (TOp M)) (b : Bool) (s2 : QueueState (Msg M)) (om : Option M)
    (ret : Nat) (ok : Bool)
    (h : popT (runTOps (createQueue (Msg M) cap) ops) b = some (s2, om, ret, ok))
    (hret : 0 < ret) :
    ok = true ∧ ∃ v, om = some v := by
  have ht : TypedOnly (runTOps (createQueue (Msg M) cap) ops) := by
    refine runTOps_typedOnly ops _ ?_
    intro m hm
    simp [createQueue] at hm
  exact popT_asserts_hold _ b ht s2 om ret ok h hret

/-- Witness for C8: one typed push of 5 then a typed non-blocking pop. -/
theorem typed_pop_asserts_witness :
    true = true ∧ ∃ v : Nat, (some 5 : Option Nat) = some v :=
  typed_pop_asserts Nat 2 [TOp.push 5] false ⟨2, false, []⟩ (some 5) 1 true
    (by decide) (by decide)
